import Mathlib

/-!
Verification of the crypto payment reconciliation core of a Telegram
storefront bot (sources: `payment_solana.py` and `utils.py`).

The Python code is shallowly embedded: `Decimal` values become exact
rationals (`ℚ`), SQLite rows become Lean structures, and the few stateful
functions become explicit state-passing functions.  `Decimal.quantize`
uses Python's default rounding mode ROUND_HALF_EVEN, embedded here as
`roundHalfEven`.  The 28-significant-digit precision of the default
`Decimal` context on intermediate divisions is not modelled: it can change
a subsequently 5-decimal-quantized result only when the exact quotient
lies within about `10⁻²³` of a quantization boundary, which no statement
below depends on.
-/

namespace PaymentCore

/-! ### Decimal quantization (Python `Decimal.quantize`, ROUND_HALF_EVEN) -/

/-- Round a rational to the nearest integer, ties to the even integer.
This is Python `decimal`'s default rounding mode. -/
def roundHalfEven (x : ℚ) : ℤ :=
  if Int.fract x < 1/2 then ⌊x⌋
  else if 1/2 < Int.fract x then ⌊x⌋ + 1
  else if Even ⌊x⌋ then ⌊x⌋ else ⌊x⌋ + 1

/-- `q.quantize(Decimal("0.00001"))`: quantize to 5 decimal places. -/
def quantize5 (q : ℚ) : ℚ := (roundHalfEven (q * 100000) : ℚ) / 100000

/-- `q.quantize(Decimal("0.01"))`: quantize to 2 decimal places. -/
def quantize2 (q : ℚ) : ℚ := (roundHalfEven (q * 100) : ℚ) / 100

theorem abs_roundHalfEven_sub_le (x : ℚ) : |(roundHalfEven x : ℚ) - x| ≤ 1/2 := by
  have hfloor : (⌊x⌋ : ℚ) ≤ x := Int.floor_le x
  have hfract0 : (0 : ℚ) ≤ Int.fract x := Int.fract_nonneg x
  have hfract1 : Int.fract x < 1 := Int.fract_lt_one x
  have hfx : Int.fract x = x - ⌊x⌋ := rfl
  unfold roundHalfEven
  split
  · rename_i h
    rw [abs_sub_comm, abs_of_nonneg (by linarith [hfx])]
    rw [hfx] at h
    linarith
  · split
    · rename_i h1 h2
      rw [hfx] at h1 h2
      push_cast
      rw [abs_of_nonneg (by linarith)]
      linarith
    · split
      · rename_i h1 h2 _
        rw [hfx] at h1 h2
        have : Int.fract x = 1/2 := by rw [hfx]; linarith
        rw [hfx] at this
        rw [abs_sub_comm, abs_of_nonneg (by linarith)]
        linarith
      · rename_i h1 h2 _
        rw [hfx] at h1 h2
        push_cast
        rw [abs_of_nonneg (by linarith)]
        linarith

theorem roundHalfEven_intCast (n : ℤ) : roundHalfEven (n : ℚ) = n := by
  unfold roundHalfEven
  rw [Int.fract_intCast]
  norm_num

theorem quantize2_fifty : quantize2 ((1/2 : ℚ) * 100) = 50 := by
  unfold quantize2
  rw [show ((1:ℚ)/2 * 100) * 100 = ((5000 : ℤ) : ℚ) by norm_num, roundHalfEven_intCast]
  norm_num

theorem quantize2_fifty_pos : 0 < quantize2 ((1/2 : ℚ) * 100) := by
  rw [quantize2_fifty]
  norm_num

/-! ### Deposit scan classification (`_check_single_wallet`) -/

/-- The classification a single scan of one pending wallet produces.
`noActivity` is the `return None` path of `_check_single_wallet`. -/
inductive ScanAction where
  | paid
  | underpaid
  | expired
  | noActivity
deriving DecidableEq, Repr

/-- The classification logic of `_check_single_wallet` (payment_solana.py):
`sol_balance = lamports / 10⁹`; paid when `sol_balance > 0` and
`sol_balance ≥ expected * 0.97`; otherwise underpaid when `sol_balance > 0`;
otherwise expired when the wallet is older than 20 minutes
(`ageSeconds` is `now - created_at` in seconds); otherwise no result. -/
def checkSingleWallet (lamports : ℕ) (expected : ℚ) (ageSeconds : ℚ) : ScanAction :=
  let solBalance : ℚ := (lamports : ℚ) / 10 ^ 9
  if 0 < solBalance ∧ expected * (97/100) ≤ solBalance then .paid
  else if 0 < solBalance then .underpaid
  else if 1200 < ageSeconds then .expired
  else .noActivity

/-- Claim C5: for every pending wallet with positive expected amount, an
observed balance at or above `expected * 0.97` (in particular exactly
`expected * 0.97`) is classified Paid, and an observed balance strictly
between `0` and `expected * 0.97` is classified Underpaid. -/
theorem underpayment_tolerance_boundary (lamports : ℕ) (expected ageSeconds : ℚ)
    (hexp : 0 < expected) :
    (expected * (97/100) ≤ (lamports : ℚ) / 10 ^ 9 →
      checkSingleWallet lamports expected ageSeconds = .paid) ∧
    (0 < (lamports : ℚ) / 10 ^ 9 → (lamports : ℚ) / 10 ^ 9 < expected * (97/100) →
      checkSingleWallet lamports expected ageSeconds = .underpaid) := by
  constructor
  · intro h
    have hpos : 0 < (lamports : ℚ) / 10 ^ 9 := lt_of_lt_of_le (by positivity) h
    simp only [checkSingleWallet]
    rw [if_pos ⟨hpos, h⟩]
  · intro hpos hlt
    simp only [checkSingleWallet]
    rw [if_neg (by rintro ⟨-, h⟩; exact absurd hlt (not_lt.mpr h)), if_pos hpos]

theorem underpayment_tolerance_boundary_witness :
    (0 : ℚ) < 1 ∧
    ((1 : ℚ) * (97/100) ≤ (970000000 : ℕ) / 10 ^ 9 →
      checkSingleWallet 970000000 1 0 = .paid) ∧
    (0 < ((969999999 : ℕ) : ℚ) / 10 ^ 9 → ((969999999 : ℕ) : ℚ) / 10 ^ 9 < 1 * (97/100) →
      checkSingleWallet 969999999 1 0 = .underpaid) :=
  ⟨by norm_num, (underpayment_tolerance_boundary 970000000 1 0 (by norm_num)).1,
    (underpayment_tolerance_boundary 969999999 1 0 (by norm_num)).2⟩

/-- Claim C8: a pending wallet with zero on-chain balance is classified
Expired exactly when its age strictly exceeds the 20-minute (1200 s)
window; with zero balance and age at or below the window the scan yields
no result for the wallet. -/
theorem zero_balance_expiry (expected ageSeconds : ℚ) :
    (checkSingleWallet 0 expected ageSeconds = .expired ↔ 1200 < ageSeconds) ∧
    (ageSeconds ≤ 1200 → checkSingleWallet 0 expected ageSeconds = .noActivity) := by
  have hz : ((0 : ℕ) : ℚ) / 10 ^ 9 = 0 := by norm_num
  constructor
  · constructor
    · intro h
      by_contra hage
      simp only [checkSingleWallet, hz] at h
      rw [if_neg (by rintro ⟨h0, -⟩; exact absurd h0 (lt_irrefl 0)),
        if_neg (lt_irrefl 0), if_neg hage] at h
      exact absurd h (by simp)
    · intro hage
      simp only [checkSingleWallet, hz]
      rw [if_neg (by rintro ⟨h0, -⟩; exact absurd h0 (lt_irrefl 0)),
        if_neg (lt_irrefl 0), if_pos hage]
  · intro hage
    simp only [checkSingleWallet, hz]
    rw [if_neg (by rintro ⟨h0, -⟩; exact absurd h0 (lt_irrefl 0)),
      if_neg (lt_irrefl 0), if_neg (not_lt.mpr hage)]

theorem zero_balance_expiry_witness :
    (checkSingleWallet 0 1 1201 = .expired ↔ (1200 : ℚ) < 1201) ∧
    ((1199 : ℚ) ≤ 1200 → checkSingleWallet 0 1 1199 = .noActivity) :=
  ⟨(zero_balance_expiry 1 1201).1, (zero_balance_expiry 1 1199).2⟩

/-! ### Ephemeral wallet issuance (`create_solana_payment`) -/

/-- One row of the `solana_wallets` table, as inserted by
`create_solana_payment`. -/
structure WalletRow where
  user_id : ℕ
  order_id : String
  public_key : String
  private_key : String
  expected_amount : ℚ
  status : String
deriving DecidableEq, Repr

/-- `SELECT ... FROM solana_wallets WHERE order_id = ?` followed by
`fetchone()`. -/
def lookupWallet (table : List WalletRow) (orderId : String) : Option WalletRow :=
  (table.filter (fun w => w.order_id = orderId)).head?

/-- The fields of the dict `create_solana_payment` returns on success
(`pay_address` and `pay_amount`; the constant currency and echo of the
inputs are omitted). -/
structure PaymentReply where
  pay_address : String
  pay_amount : ℚ
deriving DecidableEq, Repr

/-- The amount computation of `create_solana_payment`:
`(Decimal(eur_amount) / price).quantize(Decimal("0.00001"))`. -/
def solAmount (eurAmount price : ℚ) : ℚ := quantize5 (eurAmount / price)

/-- Modelled from the spec's words, for comparison with `solAmount`:
`round_down(fiat_amount / price, fixed_precision)`, rounding the quotient
toward zero at 5 decimal places. -/
def specRoundDownAmount (eurAmount price : ℚ) : ℚ :=
  let x := eurAmount / price * 100000
  ((if 0 ≤ x then ⌊x⌋ else -⌊-x⌋ : ℤ) : ℚ) / 100000

/-- `create_solana_payment` as a function of the wallet table, the price
the oracle returned (`None` or `0` are both falsy in Python), and the
freshly generated keypair.  Returns the reply (`none` for either error
dict) and the updated table. -/
def create_solana_payment (table : List WalletRow) (price : Option ℚ)
    (freshPub freshPriv : String) (userId : ℕ) (orderId : String) (eurAmount : ℚ) :
    Option PaymentReply × List WalletRow :=
  match price with
  | none => (none, table)
  | some p =>
    if p = 0 then (none, table)
    else
      let amt := solAmount eurAmount p
      match lookupWallet table orderId with
      | some w => (some ⟨w.public_key, w.expected_amount⟩, table)
      | none =>
        (some ⟨freshPub, amt⟩,
          table ++ [⟨userId, orderId, freshPub, freshPriv, amt, "pending"⟩])

/-- Counterexample to claim C6: the quantization is not round-down.  For
`fiat_amount = 2` and `price = 3` the code produces `0.66667`, strictly
above the exact quotient `2/3`, while round-down gives `0.66666`. -/
theorem amount_quantization_not_round_down_cx :
    solAmount 2 3 = 66667/100000 ∧ specRoundDownAmount 2 3 = 66666/100000 ∧
    (2 : ℚ)/3 < solAmount 2 3 := by
  have h1 : (2 : ℚ)/3 * 100000 = 200000/3 := by norm_num
  have hfl : ⌊(200000 : ℚ)/3⌋ = 66666 := by
    rw [Int.floor_eq_iff]
    constructor <;> norm_num
  have hfr : Int.fract ((200000 : ℚ)/3) = 2/3 := by
    rw [Int.fract, hfl]
    norm_num
  refine ⟨?_, ?_, ?_⟩
  · simp only [solAmount, quantize5, roundHalfEven, h1, hfr, hfl]
    norm_num
  · simp only [specRoundDownAmount, h1]
    rw [if_pos (by norm_num), hfl]
    norm_num
  · simp only [solAmount, quantize5, roundHalfEven, h1, hfr, hfl]
    norm_num

/-- Claim C6 as amended: wallet issuance quantizes the quotient to 5
decimal places by round-half-to-even (Python `Decimal`'s default), i.e.
the expected amount is an integer multiple of `10⁻⁵` within half an ulp
of the exact quotient; it can round up as well as down. -/
theorem amount_quantization_half_even (eurAmount price : ℚ) (hp : 0 < price) :
    |solAmount eurAmount price - eurAmount / price| ≤ 1/200000 ∧
    ∃ z : ℤ, solAmount eurAmount price = (z : ℚ) / 100000 := by
  refine ⟨?_, roundHalfEven (eurAmount / price * 100000), rfl⟩
  have h := abs_roundHalfEven_sub_le (eurAmount / price * 100000)
  have h2 : solAmount eurAmount price - eurAmount / price
      = ((roundHalfEven (eurAmount / price * 100000) : ℚ)
          - eurAmount / price * 100000) / 100000 := by
    simp only [solAmount, quantize5]
    ring
  rw [h2, abs_div, abs_of_pos (by norm_num : (0:ℚ) < 100000)]
  rw [div_le_iff₀ (by norm_num : (0:ℚ) < 100000)]
  calc |(roundHalfEven (eurAmount / price * 100000) : ℚ) - eurAmount / price * 100000|
      ≤ 1/2 := h
    _ = 1/200000 * 100000 := by norm_num

theorem amount_quantization_half_even_witness :
    (0 : ℚ) < 2 ∧
    (|solAmount 1 2 - 1 / 2| ≤ 1/200000 ∧ ∃ z : ℤ, solAmount 1 2 = (z : ℚ) / 100000) :=
  ⟨by norm_num, amount_quantization_half_even 1 2 (by norm_num)⟩

/-- Claim C7: wallet issuance is idempotent in `order_id`.  If a wallet
row already exists for the order, the call returns that row's public key
and expected amount and leaves the table unchanged; hence a second call
with the same `order_id` (any nonzero price, any fresh keypair) returns
the same payment address as the first and inserts no second row. -/
theorem wallet_issuance_idempotent (table : List WalletRow)
    (p1 p2 : ℚ) (hp1 : p1 ≠ 0) (hp2 : p2 ≠ 0)
    (pub1 priv1 pub2 priv2 : String) (userId : ℕ) (orderId : String) (eur1 eur2 : ℚ) :
    (∀ w, lookupWallet table orderId = some w →
      create_solana_payment table (some p1) pub1 priv1 userId orderId eur1
        = (some ⟨w.public_key, w.expected_amount⟩, table)) ∧
    (lookupWallet table orderId = none →
      (create_solana_payment table (some p1) pub1 priv1 userId orderId eur1).1
        = some ⟨pub1, solAmount eur1 p1⟩ ∧
      (create_solana_payment
          (create_solana_payment table (some p1) pub1 priv1 userId orderId eur1).2
          (some p2) pub2 priv2 userId orderId eur2).1
        = some ⟨pub1, solAmount eur1 p1⟩ ∧
      (create_solana_payment
          (create_solana_payment table (some p1) pub1 priv1 userId orderId eur1).2
          (some p2) pub2 priv2 userId orderId eur2).2
        = (create_solana_payment table (some p1) pub1 priv1 userId orderId eur1).2) := by
  constructor
  · intro w hw
    simp only [create_solana_payment, if_neg hp1, hw]
  · intro hnone
    have hfe : List.filter (fun w => decide (w.order_id = orderId)) table = [] := by
      have h := hnone
      simp only [lookupWallet] at h
      exact List.head?_eq_none_iff.mp h
    have h1 : create_solana_payment table (some p1) pub1 priv1 userId orderId eur1
        = (some ⟨pub1, solAmount eur1 p1⟩,
            table ++ [⟨userId, orderId, pub1, priv1, solAmount eur1 p1, "pending"⟩]) := by
      simp only [create_solana_payment, if_neg hp1, hnone]
    have hlook2 : lookupWallet
        (table ++ [⟨userId, orderId, pub1, priv1, solAmount eur1 p1, "pending"⟩]) orderId
        = some ⟨userId, orderId, pub1, priv1, solAmount eur1 p1, "pending"⟩ := by
      simp only [lookupWallet, List.filter_append, hfe, List.nil_append]
      simp [List.filter_cons]
    refine ⟨by rw [h1], ?_, ?_⟩
    · rw [h1]
      simp only [create_solana_payment, if_neg hp2, hlook2]
    · rw [h1]
      simp only [create_solana_payment, if_neg hp2, hlook2]

theorem wallet_issuance_idempotent_witness :
    ((1 : ℚ) ≠ 0) ∧ ((2 : ℚ) ≠ 0) ∧
    (lookupWallet [] "ord1" = none →
      (create_solana_payment [] (some 1) "pubA" "privA" 7 "ord1" 10).1
        = some ⟨"pubA", solAmount 10 1⟩ ∧
      (create_solana_payment
          (create_solana_payment [] (some 1) "pubA" "privA" 7 "ord1" 10).2
          (some 2) "pubB" "privB" 7 "ord1" 10).1
        = some ⟨"pubA", solAmount 10 1⟩ ∧
      (create_solana_payment
          (create_solana_payment [] (some 1) "pubA" "privA" 7 "ord1" 10).2
          (some 2) "pubB" "privB" 7 "ord1" 10).2
        = (create_solana_payment [] (some 1) "pubA" "privA" 7 "ord1" 10).2) :=
  ⟨by norm_num, by norm_num,
    (wallet_issuance_idempotent [] 1 2 (by norm_num) (by norm_num)
      "pubA" "privA" "pubB" "privB" 7 "ord1" 10 10).2⟩

/-! ### Price oracle (`get_sol_price_eur` and its caches) -/

/-- The in-process price cache `_price_cache`: the dict
`\x7b'price': None, 'timestamp': 0, 'last_api_used': None\x7d`. -/
structure MemCache where
  price : Option ℚ
  timestamp : ℚ
  lastApiUsed : Option (Fin 3)
deriving DecidableEq, Repr

/-- The oracle-visible state: the in-process cache and the durable
`bot_settings` row `sol_price_eur_cache` as `(price, updated_at)`. -/
structure OracleState where
  mem : MemCache
  db : Option (ℚ × ℚ)
deriving DecidableEq, Repr

/-- `get_sol_price_from_db`: return the durable cached price when the row
exists and is fresher than 600 seconds. -/
def getSolPriceFromDb (db : Option (ℚ × ℚ)) (now : ℚ) : Option ℚ :=
  match db with
  | some (p, t) => if now - t < 600 then some p else none
  | none => none

/-- `fetch_price_from_api`: `outcome` is what the HTTP call and parsing
produced; the function returns the price only when it is truthy
(`if price:`), so a parsed `0` behaves like a failure. -/
def fetchPriceFromApi (outcome : Option ℚ) : Option ℚ :=
  match outcome with
  | some p => if p = 0 then none else some p
  | none => none

/-- The `for i in range(len(apis))` loop of `get_sol_price_eur`: try the
sources in the given order, stopping at the first success.  Returns the
successful `(index, price)`, if any, together with the list of sources
actually contacted, in order. -/
def tryApisFrom (live : Fin 3 → Option ℚ) : List (Fin 3) → Option (Fin 3 × ℚ) × List (Fin 3)
  | [] => (none, [])
  | i :: rest =>
    match fetchPriceFromApi (live i) with
    | some p => (some (i, p), [i])
    | none =>
      let r := tryApisFrom live rest
      (r.1, i :: r.2)

/-- The rotated source order: `start_idx = (last_api_used + 1) % 3` when a
source was used before, else `0`, then three consecutive indices mod 3. -/
def rotationOrder (last : Option (Fin 3)) : List (Fin 3) :=
  let start : Fin 3 := match last with | none => 0 | some l => l + 1
  [start, start + 1, start + 2]

/-- Layers 3 and 4 of `get_sol_price_eur`: live fetch in rotated order; on
success write through to both the in-process and the durable cache; on
total failure fall back to a stale in-process value younger than one
hour.  Returns the price, the new state, and the sources contacted. -/
def oracleLayer3 (st : OracleState) (now : ℚ) (live : Fin 3 → Option ℚ) :
    Option ℚ × OracleState × List (Fin 3) :=
  match tryApisFrom live (rotationOrder st.mem.lastApiUsed) with
  | (some (idx, p), tried) =>
    (some p,
      { mem := { price := some p, timestamp := now, lastApiUsed := some idx },
        db := some (p, now) },
      tried)
  | (none, tried) =>
    match st.mem.price with
    | some p =>
      if p ≠ 0 ∧ now - st.mem.timestamp < 3600 then (some p, st, tried) else (none, st, tried)
    | none => (none, st, tried)

/-- Layer 2 of `get_sol_price_eur`: the durable cache.  A hit (truthy
price) refreshes the in-process cache and returns without contacting any
live source. -/
def oracleLayer2 (st : OracleState) (now : ℚ) (live : Fin 3 → Option ℚ) :
    Option ℚ × OracleState × List (Fin 3) :=
  match getSolPriceFromDb st.db now with
  | some p =>
    if p = 0 then oracleLayer3 st now live
    else (some p, { st with mem := { st.mem with price := some p, timestamp := now } }, [])
  | none => oracleLayer3 st now live

/-- `get_sol_price_eur`: layer 1 is the in-process cache, consulted when
its price is truthy and younger than 300 seconds. -/
def getSolPriceEur (st : OracleState) (now : ℚ) (live : Fin 3 → Option ℚ) :
    Option ℚ × OracleState × List (Fin 3) :=
  match st.mem.price with
  | some p =>
    if p ≠ 0 ∧ now - st.mem.timestamp < 300 then (some p, st, [])
    else oracleLayer2 st now live
  | none => oracleLayer2 st now live

/-- The in-process cache does not yield a value: it is empty, zero, or
older than its 5-minute TTL. -/
def memCacheMiss (st : OracleState) (now : ℚ) : Prop :=
  ∀ p, st.mem.price = some p → p = 0 ∨ 300 ≤ now - st.mem.timestamp

/-- The durable cache does not yield a truthy value. -/
def dbCacheMiss (st : OracleState) (now : ℚ) : Prop :=
  ∀ p, getSolPriceFromDb st.db now = some p → p = 0

theorem getSolPriceEur_of_memMiss (st : OracleState) (now : ℚ) (live : Fin 3 → Option ℚ)
    (h : memCacheMiss st now) : getSolPriceEur st now live = oracleLayer2 st now live := by
  unfold getSolPriceEur
  cases hm : st.mem.price with
  | none => rfl
  | some p =>
    dsimp only
    rw [if_neg]
    rintro ⟨hp, hts⟩
    rcases h p hm with h0 | h0
    · exact hp h0
    · exact absurd hts (not_lt.mpr h0)

theorem oracleLayer2_of_dbMiss (st : OracleState) (now : ℚ) (live : Fin 3 → Option ℚ)
    (h : dbCacheMiss st now) : oracleLayer2 st now live = oracleLayer3 st now live := by
  unfold oracleLayer2
  cases hd : getSolPriceFromDb st.db now with
  | none => rfl
  | some p =>
    dsimp only
    rw [if_pos (h p hd)]

theorem tryApisFrom_tried_take (live : Fin 3 → Option ℚ) :
    ∀ ord : List (Fin 3), ∃ k, (tryApisFrom live ord).2 = ord.take k := by
  intro ord
  induction ord with
  | nil => exact ⟨0, rfl⟩
  | cons i rest ih =>
    unfold tryApisFrom
    cases hf : fetchPriceFromApi (live i) with
    | some p => exact ⟨1, by simp⟩
    | none =>
      obtain ⟨k, hk⟩ := ih
      exact ⟨k + 1, by simp [hk]⟩

theorem tryApisFrom_dropLast_fail (live : Fin 3 → Option ℚ) :
    ∀ ord : List (Fin 3), ∀ i ∈ ((tryApisFrom live ord).2).dropLast,
      fetchPriceFromApi (live i) = none := by
  intro ord
  induction ord with
  | nil => intro i h; simp [tryApisFrom] at h
  | cons j rest ih =>
    intro i hi
    unfold tryApisFrom at hi
    cases hf : fetchPriceFromApi (live j) with
    | some p => rw [hf] at hi; simp at hi
    | none =>
      rw [hf] at hi
      dsimp only at hi
      cases hr : (tryApisFrom live rest).2 with
      | nil => rw [hr] at hi; simp at hi
      | cons a l =>
        rw [hr] at hi
        rw [List.dropLast_cons₂] at hi
        rcases List.mem_cons.mp hi with h | h
        · rw [h]; exact hf
        · exact ih i (by rw [hr]; exact h)

theorem tryApisFrom_res_some (live : Fin 3 → Option ℚ) :
    ∀ ord : List (Fin 3), ∀ i p, (tryApisFrom live ord).1 = some (i, p) →
      fetchPriceFromApi (live i) = some p ∧ i ∈ (tryApisFrom live ord).2 := by
  intro ord
  induction ord with
  | nil => intro i p h; simp [tryApisFrom] at h
  | cons j rest ih =>
    intro i p h
    unfold tryApisFrom at h ⊢
    cases hf : fetchPriceFromApi (live j) with
    | some q =>
      rw [hf] at h
      dsimp only at h
      simp only [Option.some.injEq, Prod.mk.injEq] at h
      obtain ⟨hij, hpq⟩ := h
      subst hij; subst hpq
      simp [hf]
    | none =>
      rw [hf] at h
      dsimp only at h
      obtain ⟨h1, h2⟩ := ih i p h
      simp [hf, h1, h2]

theorem tryApisFrom_none_all_fail (live : Fin 3 → Option ℚ) :
    ∀ ord : List (Fin 3), (tryApisFrom live ord).1 = none →
      ∀ i ∈ ord, fetchPriceFromApi (live i) = none := by
  intro ord
  induction ord with
  | nil => intro _ i h; simp at h
  | cons j rest ih =>
    intro h i hi
    unfold tryApisFrom at h
    cases hf : fetchPriceFromApi (live j) with
    | some q => rw [hf] at h; simp at h
    | none =>
      rw [hf] at h
      dsimp only at h
      rcases List.mem_cons.mp hi with h1 | h1
      · rw [h1]; exact hf
      · exact ih h i h1

theorem oracleLayer3_success (st : OracleState) (now : ℚ) (live : Fin 3 → Option ℚ)
    (idx : Fin 3) (p : ℚ) (tried : List (Fin 3))
    (hT : tryApisFrom live (rotationOrder st.mem.lastApiUsed) = (some (idx, p), tried)) :
    oracleLayer3 st now live
      = (some p,
          { mem := { price := some p, timestamp := now, lastApiUsed := some idx },
            db := some (p, now) },
          tried) := by
  unfold oracleLayer3
  rw [hT]

theorem oracleLayer3_allFail_tried (st : OracleState) (now : ℚ) (live : Fin 3 → Option ℚ)
    (tried : List (Fin 3))
    (hT : tryApisFrom live (rotationOrder st.mem.lastApiUsed) = (none, tried)) :
    (oracleLayer3 st now live).2.2 = tried := by
  unfold oracleLayer3
  rw [hT]
  cases hm : st.mem.price with
  | none => rfl
  | some p =>
    dsimp only
    split <;> rfl

theorem mem_rotationOrder : ∀ l j : Fin 3, j ∈ rotationOrder (some l) := by decide

theorem rotationOrder_last_is_last (l : Fin 3) :
    rotationOrder (some l) = [l + 1, l + 2, l] := by
  have h1 : l + 1 + 1 = l + 2 := by
    rw [add_assoc]
    norm_num
  have h2 : l + 1 + 2 = l := by
    rw [add_assoc, show (1 + 2 : Fin 3) = 0 by decide, add_zero]
  simp [rotationOrder, h1, h2]

/-- Claim C9: price oracle layering and rotation.  (1) A fresh, truthy
in-process cache is returned with no live source contacted and no state
change.  (2) With the in-process cache missing, a fresh truthy durable
cache value is returned with no live source contacted.  (3) With both
caches missing, the live sources are tried in rotated order, the source
used last time being tried last; sources before the first success all
failed; and when any source can succeed, the returned price is the one
fetched from a contacted source and is written through to both the
in-process and the durable cache. -/
theorem price_oracle_layering (st : OracleState) (now : ℚ) (live : Fin 3 → Option ℚ) :
    (∀ p, st.mem.price = some p → p ≠ 0 → now - st.mem.timestamp < 300 →
      getSolPriceEur st now live = (some p, st, [])) ∧
    (∀ p t, memCacheMiss st now → st.db = some (p, t) → now - t < 600 → p ≠ 0 →
      (getSolPriceEur st now live).1 = some p ∧ (getSolPriceEur st now live).2.2 = []) ∧
    (∀ l, memCacheMiss st now → dbCacheMiss st now → st.mem.lastApiUsed = some l →
      rotationOrder (some l) = [l + 1, l + 2, l] ∧
      (∃ k, (getSolPriceEur st now live).2.2 = (rotationOrder (some l)).take k) ∧
      (∀ i ∈ (getSolPriceEur st now live).2.2.dropLast, fetchPriceFromApi (live i) = none) ∧
      ((∃ j p0, fetchPriceFromApi (live j) = some p0) →
        ∃ i p, (getSolPriceEur st now live).1 = some p ∧
          fetchPriceFromApi (live i) = some p ∧
          i ∈ (getSolPriceEur st now live).2.2 ∧
          (getSolPriceEur st now live).2.1.mem.price = some p ∧
          (getSolPriceEur st now live).2.1.mem.timestamp = now ∧
          (getSolPriceEur st now live).2.1.mem.lastApiUsed = some i ∧
          (getSolPriceEur st now live).2.1.db = some (p, now))) := by
  refine ⟨?_, ?_, ?_⟩
  · intro p hp hp0 hfresh
    unfold getSolPriceEur
    rw [hp]
    dsimp only
    rw [if_pos ⟨hp0, hfresh⟩]
  · intro p t hmiss hdb hfresh hp0
    rw [getSolPriceEur_of_memMiss st now live hmiss]
    unfold oracleLayer2
    have hdbp : getSolPriceFromDb st.db now = some p := by
      rw [hdb]
      unfold getSolPriceFromDb
      dsimp only
      rw [if_pos hfresh]
    rw [hdbp]
    dsimp only
    rw [if_neg hp0]
    exact ⟨rfl, rfl⟩
  · intro l hmiss hdbmiss hlast
    rw [getSolPriceEur_of_memMiss st now live hmiss, oracleLayer2_of_dbMiss st now live hdbmiss]
    refine ⟨rotationOrder_last_is_last l, ?_, ?_, ?_⟩
    · rcases hT : tryApisFrom live (rotationOrder st.mem.lastApiUsed) with ⟨res, tried⟩
      obtain ⟨k, hk⟩ := tryApisFrom_tried_take live (rotationOrder st.mem.lastApiUsed)
      rw [hT] at hk
      dsimp only at hk
      rw [hlast] at hk
      cases res with
      | some v =>
        obtain ⟨idx, p⟩ := v
        rw [oracleLayer3_success st now live idx p tried hT]
        exact ⟨k, hk⟩
      | none =>
        rw [oracleLayer3_allFail_tried st now live tried hT]
        exact ⟨k, hk⟩
    · rcases hT : tryApisFrom live (rotationOrder st.mem.lastApiUsed) with ⟨res, tried⟩
      have hDL := tryApisFrom_dropLast_fail live (rotationOrder st.mem.lastApiUsed)
      rw [hT] at hDL
      dsimp only at hDL
      cases res with
      | some v =>
        obtain ⟨idx, p⟩ := v
        rw [oracleLayer3_success st now live idx p tried hT]
        exact hDL
      | none =>
        rw [oracleLayer3_allFail_tried st now live tried hT]
        exact hDL
    · rintro ⟨j, p0, hj⟩
      rcases hT : tryApisFrom live (rotationOrder st.mem.lastApiUsed) with ⟨res, tried⟩
      cases res with
      | some v =>
        obtain ⟨idx, p⟩ := v
        have hr1 : (tryApisFrom live (rotationOrder st.mem.lastApiUsed)).1 = some (idx, p) := by
          rw [hT]
        obtain ⟨hf, hmem⟩ := tryApisFrom_res_some live _ idx p hr1
        rw [hT] at hmem
        dsimp only at hmem
        rw [oracleLayer3_success st now live idx p tried hT]
        exact ⟨idx, p, rfl, hf, hmem, rfl, rfl, rfl, rfl⟩
      | none =>
        have hr1 : (tryApisFrom live (rotationOrder st.mem.lastApiUsed)).1 = none := by
          rw [hT]
        have hall := tryApisFrom_none_all_fail live _ hr1 j (by rw [hlast]; exact mem_rotationOrder l j)
        rw [hall] at hj
        exact absurd hj (by simp)

theorem price_oracle_layering_witness :
    ((⟨⟨some 5, 0, none⟩, none⟩ : OracleState).mem.price = some 5 ∧ (5 : ℚ) ≠ 0 ∧
      (10 : ℚ) - (⟨⟨some 5, 0, none⟩, none⟩ : OracleState).mem.timestamp < 300 ∧
      getSolPriceEur ⟨⟨some 5, 0, none⟩, none⟩ 10 (fun _ => none)
        = (some 5, ⟨⟨some 5, 0, none⟩, none⟩, [])) ∧
    (memCacheMiss ⟨⟨none, 0, none⟩, some (7, 0)⟩ 10 ∧
      (getSolPriceEur ⟨⟨none, 0, none⟩, some (7, 0)⟩ 10 (fun _ => none)).1 = some 7 ∧
      (getSolPriceEur ⟨⟨none, 0, none⟩, some (7, 0)⟩ 10 (fun _ => none)).2.2 = []) ∧
    (memCacheMiss ⟨⟨none, 0, some 1⟩, none⟩ 10 ∧
      dbCacheMiss ⟨⟨none, 0, some 1⟩, none⟩ 10 ∧
      ((∃ j p0, fetchPriceFromApi ((fun i : Fin 3 => if i = 0 then some 9 else none) j) = some p0) →
        ∃ i p, (getSolPriceEur ⟨⟨none, 0, some 1⟩, none⟩ 10
            (fun i : Fin 3 => if i = 0 then some 9 else none)).1 = some p ∧
          fetchPriceFromApi ((fun i : Fin 3 => if i = 0 then some 9 else none) i) = some p ∧
          i ∈ (getSolPriceEur ⟨⟨none, 0, some 1⟩, none⟩ 10
            (fun i : Fin 3 => if i = 0 then some 9 else none)).2.2 ∧
          (getSolPriceEur ⟨⟨none, 0, some 1⟩, none⟩ 10
            (fun i : Fin 3 => if i = 0 then some 9 else none)).2.1.mem.price = some p ∧
          (getSolPriceEur ⟨⟨none, 0, some 1⟩, none⟩ 10
            (fun i : Fin 3 => if i = 0 then some 9 else none)).2.1.mem.timestamp = 10 ∧
          (getSolPriceEur ⟨⟨none, 0, some 1⟩, none⟩ 10
            (fun i : Fin 3 => if i = 0 then some 9 else none)).2.1.mem.lastApiUsed = some i ∧
          (getSolPriceEur ⟨⟨none, 0, some 1⟩, none⟩ 10
            (fun i : Fin 3 => if i = 0 then some 9 else none)).2.1.db = some (p, 10))) :=
  ⟨⟨rfl, by norm_num, by norm_num,
      (price_oracle_layering ⟨⟨some 5, 0, none⟩, none⟩ 10 (fun _ => none)).1 5 rfl
        (by norm_num) (by norm_num)⟩,
    ⟨fun p h => by simp at h,
      (price_oracle_layering ⟨⟨none, 0, none⟩, some (7, 0)⟩ 10 (fun _ => none)).2.1 7 0
        (fun p h => by simp at h) rfl (by norm_num) (by norm_num)⟩,
    fun p h => by simp at h,
    fun p h => by simp [getSolPriceFromDb] at h,
    ((price_oracle_layering ⟨⟨none, 0, some 1⟩, none⟩ 10
        (fun i : Fin 3 => if i = 0 then some 9 else none)).2.2 1
      (fun p h => by simp at h)
      (fun p h => by simp [getSolPriceFromDb] at h) rfl).2.2.2⟩

/-! ### Settlement (`_process_payment_result`) and reservation release
(`remove_pending_deposit`, `_unreserve_basket_items`) -/

/-- One basket line item of a snapshot; `product_id` is an `Option`
because `_unreserve_basket_items` skips items without a `product_id`
key. -/
structure Item where
  product_id : Option ℕ
deriving DecidableEq, Repr

/-- One `pending_deposits` row (the fields the settlement paths read). -/
structure Deposit where
  is_purchase : Bool
  basket_snapshot : Option (List Item)
  discount_code : Option String
  target_eur_amount : Option ℚ
deriving DecidableEq, Repr

/-- The observable side effects of the settlement code, in program order:
wallet status writes, `credit_user_balance`,
`process_successful_crypto_purchase`, `process_successful_refill`,
`send_message_with_retry` to the user, and scheduling of
`sweep_wallet`. -/
inductive Ev where
  | statusWrite (status : String) (amountReceived : Option ℚ)
  | credit (amountEur : ℚ)
  | delivery
  | refill (amountEur : ℚ)
  | notify
  | sweep
deriving DecidableEq, Repr

/-- The state the settlement paths touch: the wallet row under
consideration, its `pending_deposits` row, the `products.reserved`
counters, a ghost counter of how many times the un-reserve branch of
`remove_pending_deposit` has run, and the trace of side effects. -/
structure SettleState where
  walletStatus : String
  amountReceived : Option ℚ
  deposit : Option Deposit
  reserved : ℕ → ℕ
  releases : ℕ
  events : List Ev

/-- The triggers `remove_pending_deposit` treats as successful payment
completion (no un-reserve). -/
def successfulTriggers : List String :=
  ["purchase_success", "refill_success", "crypto_payment_success",
    "refill_payment_success", "recovery_success"]

/-- Per-product multiplicity of a snapshot:
`Counter(item['product_id'] for item in basket_snapshot if 'product_id' in item)`. -/
def snapshotCount (items : List Item) (p : ℕ) : ℕ :=
  (items.filterMap (fun it => it.product_id)).count p

/-- `_unreserve_basket_items`: decrement each product's reserved count by
its snapshot multiplicity, clamped at zero
(`UPDATE products SET reserved = MAX(0, reserved - ?)`; `ℕ` subtraction
is the clamp).  A missing snapshot changes nothing, and products outside
the snapshot are untouched because their multiplicity is zero. -/
def unreserveBasketItems (snap : Option (List Item)) (reserved : ℕ → ℕ) : ℕ → ℕ :=
  match snap with
  | none => reserved
  | some items => fun p => reserved p - snapshotCount items p

/-- `remove_pending_deposit` (utils.py 1757–1786): read the deposit row
(`get_pending_deposit`), `DELETE` it (`deleted` is whether a row was
removed), and when the delete removed a row, the order was a purchase and
the trigger is not a success trigger, run `_unreserve_basket_items` on
the snapshot.  The ghost field `releases` counts executions of that
un-reserve branch. -/
def removePendingDepositS (st : SettleState) (trig : String) : SettleState :=
  let info := st.deposit
  let deleted := st.deposit.isSome
  let st1 := { st with deposit := none }
  match info with
  | some d =>
    if deleted && d.is_purchase && !(successfulTriggers.contains trig) then
      { st1 with reserved := unreserveBasketItems d.basket_snapshot st1.reserved,
                 releases := st1.releases + 1 }
    else st1
  | none => st1

/-- `_process_payment_result`, `action == 'paid'`, lines 349–361: when
the surplus exceeds the 0.0005 dust threshold and the oracle returns a
truthy price, credit the quantized EUR surplus when positive. -/
def overpaymentCredit (st : SettleState) (price : Option ℚ) (balance expected : ℚ) :
    SettleState :=
  if 5/10000 < balance - expected then
    match price with
    | some pr =>
      if pr = 0 then st
      else if 0 < quantize2 ((balance - expected) * pr) then
        { st with events := st.events ++ [.credit (quantize2 ((balance - expected) * pr))] }
      else st
    | none => st
  else st

/-- `action == 'paid'`, lines 363–420: look up the deposit row; a
purchase gets the delivery callback and then
`remove_pending_deposit(trigger="crypto_payment_success")`; a refill gets
`process_successful_refill` for the target amount (falsy → 0) and the
refill success trigger; a missing row is only logged. -/
def deliverAndRemove (st : SettleState) : SettleState :=
  match st.deposit with
  | some d =>
    if d.is_purchase then
      removePendingDepositS { st with events := st.events ++ [.delivery] }
        "crypto_payment_success"
    else
      removePendingDepositS
        { st with events := st.events ++
            [.refill (match d.target_eur_amount with | some a => a | none => 0)] }
        "refill_payment_success"
  | none => st

/-- Lines 422–424 and 458–460: schedule the sweep task when
`ENABLE_AUTO_SWEEP` is on and an admin wallet is configured (`sweepOn`
bundles both). -/
def scheduleSweep (st : SettleState) (sweepOn : Bool) : SettleState :=
  if sweepOn then { st with events := st.events ++ [.sweep] } else st

/-- The `action == 'paid'` branch of `_process_payment_result`, run under
`_PAYMENT_PROCESS_LOCK`: re-check `status = 'pending'`, atomically set
`status='paid'` and `amount_received` (the conditional update; with no
interleaving the select check and the rowcount check coincide), then
credit any overpayment, deliver and remove the deposit record, and
schedule the sweep. -/
def processPaid (st : SettleState) (price : Option ℚ) (balance expected : ℚ)
    (sweepOn : Bool) : SettleState :=
  if st.walletStatus = "pending" then
    scheduleSweep
      (deliverAndRemove
        (overpaymentCredit
          { st with walletStatus := "paid", amountReceived := some balance,
                    events := st.events ++ [.statusWrite "paid" (some balance)] }
          price balance expected))
      sweepOn
  else st

/-- The conditional update of the underpaid branch, lines 453–456:
`UPDATE solana_wallets SET status='refunded', amount_received=? WHERE id=?
AND status='pending'`. -/
def underpaidWrite (st : SettleState) (balance : ℚ) : SettleState :=
  if st.walletStatus = "pending" then
    { st with walletStatus := "refunded", amountReceived := some balance,
              events := st.events ++ [.statusWrite "refunded" (some balance)] }
  else st

/-- The `action == 'underpaid'` branch of `_process_payment_result`:
re-check pending; fetch the price; with a truthy price and a positive
quantized refund, notify the user, credit the refund, write
`status='refunded'` with the received amount, and schedule a sweep of
the partial funds.  With no price, a zero price, or a zero refund
nothing at all happens. -/
def processUnderpaid (st : SettleState) (price : Option ℚ) (balance : ℚ)
    (sweepOn : Bool) : SettleState :=
  if st.walletStatus = "pending" then
    match price with
    | some pr =>
      if pr = 0 then st
      else if 0 < quantize2 (balance * pr) then
        scheduleSweep
          (underpaidWrite
            { st with events := st.events ++ [.notify, .credit (quantize2 (balance * pr))] }
            balance)
          sweepOn
      else st
    | none => st
  else st

/-- The `action == 'expired'` branch: a single conditional update setting
`status='expired'`; the deposit row and the reservations are
untouched. -/
def processExpired (st : SettleState) : SettleState :=
  if st.walletStatus = "pending" then
    { st with walletStatus := "expired", events := st.events ++ [.statusWrite "expired" none] }
  else st

/-- The wallet statuses the code actually writes. -/
def codeStatuses : List String := ["pending", "paid", "refunded", "expired", "swept"]

/-- A concrete purchase deposit used by the concrete counterexamples. -/
def sampleDeposit : Deposit :=
  { is_purchase := true, basket_snapshot := some [⟨some 1⟩, ⟨some 1⟩, ⟨some 2⟩],
    discount_code := none, target_eur_amount := some 10 }

/-- A concrete pre-settlement state: pending wallet, deposit row present,
three units of each product reserved, no side effects yet. -/
def sampleState : SettleState :=
  { walletStatus := "pending", amountReceived := none, deposit := some sampleDeposit,
    reserved := fun _ => 3, releases := 0, events := [] }

theorem processUnderpaid_refund_shape (st : SettleState) (pr balance : ℚ) (sweepOn : Bool)
    (hpend : st.walletStatus = "pending") (hpr : pr ≠ 0)
    (hpos : 0 < quantize2 (balance * pr)) :
    processUnderpaid st (some pr) balance sweepOn
      = { st with walletStatus := "refunded", amountReceived := some balance,
                  events := (st.events ++ [.notify, .credit (quantize2 (balance * pr)),
                      .statusWrite "refunded" (some balance)])
                    ++ (if sweepOn then [.sweep] else []) } := by
  unfold processUnderpaid
  rw [if_pos hpend]
  dsimp only
  rw [if_neg hpr, if_pos hpos]
  unfold underpaidWrite
  dsimp only
  rw [if_pos hpend]
  unfold scheduleSweep
  by_cases hs : sweepOn = true
  · rw [if_pos hs]
    simp [List.append_assoc, hs]
  · rw [if_neg hs]
    simp [List.append_assoc, hs]

theorem removePendingDepositS_walletStatus (st : SettleState) (trig : String) :
    (removePendingDepositS st trig).walletStatus = st.walletStatus := by
  unfold removePendingDepositS
  cases hd : st.deposit with
  | none => rfl
  | some d =>
    dsimp only
    split <;> rfl

theorem scheduleSweep_walletStatus (st : SettleState) (b : Bool) :
    (scheduleSweep st b).walletStatus = st.walletStatus := by
  unfold scheduleSweep
  split <;> rfl

theorem overpaymentCredit_walletStatus (st : SettleState) (price : Option ℚ)
    (balance expected : ℚ) :
    (overpaymentCredit st price balance expected).walletStatus = st.walletStatus := by
  unfold overpaymentCredit
  split
  · cases price with
    | none => rfl
    | some pr =>
      dsimp only
      split
      · rfl
      · split <;> rfl
  · rfl

theorem deliverAndRemove_walletStatus (st : SettleState) :
    (deliverAndRemove st).walletStatus = st.walletStatus := by
  unfold deliverAndRemove
  cases hd : st.deposit with
  | none => rfl
  | some d =>
    dsimp only
    split <;> rw [removePendingDepositS_walletStatus]

theorem processPaid_walletStatus (st : SettleState) (price : Option ℚ)
    (balance expected : ℚ) (sweepOn : Bool) :
    (processPaid st price balance expected sweepOn).walletStatus = "paid" ∨
    (processPaid st price balance expected sweepOn).walletStatus = st.walletStatus := by
  unfold processPaid
  split
  · left
    rw [scheduleSweep_walletStatus, deliverAndRemove_walletStatus, overpaymentCredit_walletStatus]
  · right; rfl

theorem processUnderpaid_walletStatus (st : SettleState) (price : Option ℚ)
    (balance : ℚ) (sweepOn : Bool) :
    (processUnderpaid st price balance sweepOn).walletStatus = "refunded" ∨
    (processUnderpaid st price balance sweepOn).walletStatus = st.walletStatus := by
  unfold processUnderpaid
  split
  · cases price with
    | none => right; rfl
    | some pr =>
      dsimp only
      split
      · right; rfl
      · split
        · left
          rw [scheduleSweep_walletStatus]
          unfold underpaidWrite
          rename_i hpend _ _
          rw [if_pos hpend]
        · right; rfl
  · right; rfl

theorem processExpired_walletStatus (st : SettleState) :
    (processExpired st).walletStatus = "expired" ∨
    (processExpired st).walletStatus = st.walletStatus := by
  unfold processExpired
  split
  · left; rfl
  · right; rfl

/-- Counterexample to claim C3: running the underpaid settlement on a
concrete pending wallet (balance 0.5 SOL, price 100 EUR) notifies and
credits BEFORE the status write, and the status written is `refunded`,
which is not in the claimed status set (`underpaid` is never written). -/
theorem underpaid_write_order_cx :
    (processUnderpaid sampleState (some 100) (1/2) true).walletStatus = "refunded" ∧
    "refunded" ∉ ["pending", "paid", "underpaid", "expired", "swept"] ∧
    (processUnderpaid sampleState (some 100) (1/2) true).events
      = [.notify, .credit 50, .statusWrite "refunded" (some (1/2)), .sweep] := by
  have h := processUnderpaid_refund_shape sampleState 100 (1/2) true rfl (by norm_num)
    quantize2_fifty_pos
  rw [h]
  refine ⟨rfl, by decide, ?_⟩
  show (sampleState.events ++ [.notify, .credit (quantize2 ((1/2 : ℚ) * 100)),
      .statusWrite "refunded" (some (1/2))]) ++ (if true then [.sweep] else [])
    = [.notify, .credit 50, .statusWrite "refunded" (some (1/2)), .sweep]
  rw [quantize2_fifty]
  rfl

/-- Claim C3 as amended: when settlement processes an Underpaid
classification with a truthy price and a positive quantized refund, it
first notifies the user and credits the refund, and only then writes
status `refunded` together with the received amount (and schedules the
sweep); every wallet status the settlement paths write lies in
\x7bpending, paid, refunded, expired, swept\x7d. -/
theorem underpaid_settlement_amended (st : SettleState) (pr balance : ℚ)
    (price : Option ℚ) (bal2 expected : ℚ) (sweepOn : Bool)
    (hpend : st.walletStatus = "pending") (hpr : pr ≠ 0)
    (hpos : 0 < quantize2 (balance * pr)) :
    ((processUnderpaid st (some pr) balance sweepOn).walletStatus = "refunded" ∧
     (processUnderpaid st (some pr) balance sweepOn).events
       = (st.events ++ [.notify, .credit (quantize2 (balance * pr)),
           .statusWrite "refunded" (some balance)]) ++ (if sweepOn then [.sweep] else [])) ∧
    (∀ st2 : SettleState, st2.walletStatus ∈ codeStatuses →
      (processPaid st2 price bal2 expected sweepOn).walletStatus ∈ codeStatuses ∧
      (processUnderpaid st2 price bal2 sweepOn).walletStatus ∈ codeStatuses ∧
      (processExpired st2).walletStatus ∈ codeStatuses) := by
  constructor
  · rw [processUnderpaid_refund_shape st pr balance sweepOn hpend hpr hpos]
    exact ⟨rfl, rfl⟩
  · intro st2 hin
    refine ⟨?_, ?_, ?_⟩
    · rcases processPaid_walletStatus st2 price bal2 expected sweepOn with h | h <;> rw [h]
      · simp [codeStatuses]
      · exact hin
    · rcases processUnderpaid_walletStatus st2 price bal2 sweepOn with h | h <;> rw [h]
      · simp [codeStatuses]
      · exact hin
    · rcases processExpired_walletStatus st2 with h | h <;> rw [h]
      · simp [codeStatuses]
      · exact hin

theorem underpaid_settlement_amended_witness :
    (sampleState.walletStatus = "pending" ∧ (100 : ℚ) ≠ 0 ∧
      0 < quantize2 ((1/2 : ℚ) * 100)) ∧
    (((processUnderpaid sampleState (some 100) (1/2) true).walletStatus = "refunded" ∧
      (processUnderpaid sampleState (some 100) (1/2) true).events
        = (sampleState.events ++ [.notify, .credit (quantize2 ((1/2 : ℚ) * 100)),
            .statusWrite "refunded" (some (1/2))]) ++ (if true then [.sweep] else [])) ∧
     (∀ st2 : SettleState, st2.walletStatus ∈ codeStatuses →
       (processPaid st2 none 0 0 true).walletStatus ∈ codeStatuses ∧
       (processUnderpaid st2 none 0 true).walletStatus ∈ codeStatuses ∧
       (processExpired st2).walletStatus ∈ codeStatuses)) :=
  ⟨⟨rfl, by norm_num, quantize2_fifty_pos⟩,
    underpaid_settlement_amended sampleState 100 (1/2) none 0 0 true rfl (by norm_num)
      quantize2_fifty_pos⟩

/-- Counterexample to claim C4: on a concrete pending purchase order,
both the underpaid settlement (which completes, crediting the user and
marking the wallet `refunded`) and the expired settlement leave the
`pending_deposits` row in place, run no un-reserve, and leave the
reserved counters untouched. -/
theorem settlement_no_delete_cx :
    (processUnderpaid sampleState (some 100) (1/2) true).deposit = some sampleDeposit ∧
    (processUnderpaid sampleState (some 100) (1/2) true).releases = 0 ∧
    (processUnderpaid sampleState (some 100) (1/2) true).reserved 1 = 3 ∧
    (processExpired sampleState).deposit = some sampleDeposit ∧
    (processExpired sampleState).releases = 0 ∧
    (processExpired sampleState).reserved 1 = 3 := by
  have h := processUnderpaid_refund_shape sampleState 100 (1/2) true rfl (by norm_num)
    quantize2_fifty_pos
  rw [h]
  exact ⟨rfl, rfl, rfl, rfl, rfl, rfl⟩

/-- Claim C4 as amended: the Underpaid and Expired settlement branches
write only the wallet status (`refunded` resp. `expired`); neither
deletes the pending-deposit record, runs the un-reserve, or changes any
reserved counter.  Deletion and inventory release for non-paid purchase
orders happen only where `remove_pending_deposit` is invoked with a
non-success trigger (the timeout cleanup job), which deletes the record
and un-reserves the snapshot. -/
theorem settlement_leaves_deposit_amended (st : SettleState) (price : Option ℚ)
    (balance : ℚ) (sweepOn : Bool) (trig : String) :
    ((processUnderpaid st price balance sweepOn).deposit = st.deposit ∧
     (processUnderpaid st price balance sweepOn).reserved = st.reserved ∧
     (processUnderpaid st price balance sweepOn).releases = st.releases) ∧
    ((processExpired st).deposit = st.deposit ∧
     (processExpired st).reserved = st.reserved ∧
     (processExpired st).releases = st.releases) ∧
    (∀ d, st.deposit = some d → d.is_purchase = true →
      successfulTriggers.contains trig = false →
      (removePendingDepositS st trig).deposit = none ∧
      (removePendingDepositS st trig).releases = st.releases + 1 ∧
      (removePendingDepositS st trig).reserved
        = unreserveBasketItems d.basket_snapshot st.reserved) := by
  refine ⟨?_, ?_, ?_⟩
  · unfold processUnderpaid
    split
    · cases price with
      | none => exact ⟨rfl, rfl, rfl⟩
      | some pr =>
        dsimp only
        split
        · exact ⟨rfl, rfl, rfl⟩
        · split
          · unfold scheduleSweep underpaidWrite
            repeat' split
            all_goals exact ⟨rfl, rfl, rfl⟩
          · exact ⟨rfl, rfl, rfl⟩
    · exact ⟨rfl, rfl, rfl⟩
  · unfold processExpired
    split <;> exact ⟨rfl, rfl, rfl⟩
  · intro d hd hpur htrig
    unfold removePendingDepositS
    rw [hd]
    dsimp only
    rw [if_pos (by rw [hpur, htrig]; rfl)]
    exact ⟨rfl, rfl, rfl⟩

theorem settlement_leaves_deposit_amended_witness :
    (sampleState.deposit = some sampleDeposit ∧ sampleDeposit.is_purchase = true ∧
      successfulTriggers.contains "timeout_expiry" = false) ∧
    ((removePendingDepositS sampleState "timeout_expiry").deposit = none ∧
     (removePendingDepositS sampleState "timeout_expiry").releases = sampleState.releases + 1 ∧
     (removePendingDepositS sampleState "timeout_expiry").reserved
       = unreserveBasketItems sampleDeposit.basket_snapshot sampleState.reserved) :=
  ⟨⟨rfl, rfl, by decide⟩,
    (settlement_leaves_deposit_amended sampleState none 0 true "timeout_expiry").2.2
      sampleDeposit rfl rfl (by decide)⟩

/-! ### Claim C2: idempotent settlement of a Paid classification

Two settlement invocations for the same wallet (for example the deposit
scanner and the recovery path racing) interleave at the granularity of
the database transactions of the `action == 'paid'` branch: the `SELECT`
status check, the `BEGIN IMMEDIATE` conditional update (atomic: its
rowcount decides the winner), and the post-commit effects, which the
process lock keeps together. -/

/-- One in-flight invocation of the paid branch: `pc = 0` before the
`SELECT` check, `pc = 1` before the conditional update, `pc = 2` before
the post-commit effects, `pc = 3` returned.  `won` records whether the
conditional update hit a row. -/
structure PThread where
  pc : ℕ
  won : Bool

def pThreadInit : PThread := { pc := 0, won := false }

/-- One atomic piece of the paid branch of `_process_payment_result`. -/
def pStep (price : Option ℚ) (balance expected : ℚ) (sweepOn : Bool)
    (g : SettleState) (t : PThread) : SettleState × PThread :=
  match t.pc with
  | 0 =>
    if g.walletStatus = "pending" then (g, { t with pc := 1 })
    else (g, { t with pc := 3 })
  | 1 =>
    if g.walletStatus = "pending" then
      ({ g with walletStatus := "paid", amountReceived := some balance,
                events := g.events ++ [.statusWrite "paid" (some balance)] },
       { t with pc := 2, won := true })
    else (g, { t with pc := 3 })
  | 2 =>
    (scheduleSweep (deliverAndRemove (overpaymentCredit g price balance expected)) sweepOn,
     { t with pc := 3 })
  | _ => (g, t)

/-- Run two concurrent invocations of the paid branch under a schedule. -/
def pRun (price : Option ℚ) (balance expected : ℚ) (sweepOn : Bool) :
    List Bool → SettleState × PThread × PThread → SettleState × PThread × PThread
  | [], s => s
  | b :: rest, (g, a, c) =>
    if b then
      pRun price balance expected sweepOn rest
        ((pStep price balance expected sweepOn g a).1,
          (pStep price balance expected sweepOn g a).2, c)
    else
      pRun price balance expected sweepOn rest
        ((pStep price balance expected sweepOn g c).1, a,
          (pStep price balance expected sweepOn g c).2)

def isStatusWriteEv : Ev → Bool
  | .statusWrite _ _ => true
  | _ => false

def isCreditEv : Ev → Bool
  | .credit _ => true
  | _ => false

def isDeliveryEv : Ev → Bool
  | .delivery => true
  | _ => false

/-- How many events of a kind a trace holds. -/
def countEv (f : Ev → Bool) (l : List Ev) : ℕ := (l.filter f).length

theorem countEv_append (f : Ev → Bool) (l1 l2 : List Ev) :
    countEv f (l1 ++ l2) = countEv f l1 + countEv f l2 := by
  simp [countEv, List.filter_append]

theorem countEv_cons (f : Ev → Bool) (x : Ev) (l : List Ev) :
    countEv f (x :: l) = (if f x = true then 1 else 0) + countEv f l := by
  by_cases hx : f x = true
  · simp [countEv, List.filter_cons, hx, Nat.add_comm]
  · simp [countEv, List.filter_cons, hx]

theorem removePendingDepositS_events (st : SettleState) (trig : String) :
    (removePendingDepositS st trig).events = st.events := by
  unfold removePendingDepositS
  cases hd : st.deposit with
  | none => rfl
  | some d =>
    dsimp only
    split <;> rfl

theorem overpaymentCredit_events (st : SettleState) (price : Option ℚ)
    (balance expected : ℚ) :
    ∃ l, (overpaymentCredit st price balance expected).events = st.events ++ l ∧
      countEv isStatusWriteEv l = 0 ∧ countEv isCreditEv l ≤ 1 ∧
      countEv isDeliveryEv l = 0 := by
  unfold overpaymentCredit
  split
  · cases price with
    | none => exact ⟨[], by simp, rfl, by simp [countEv], rfl⟩
    | some pr =>
      dsimp only
      split
      · exact ⟨[], by simp, rfl, by simp [countEv], rfl⟩
      · split
        · exact ⟨[.credit (quantize2 ((balance - expected) * pr))],
            rfl, rfl, by simp [countEv, isCreditEv], rfl⟩
        · exact ⟨[], by simp, rfl, by simp [countEv], rfl⟩
  · exact ⟨[], by simp, rfl, by simp [countEv], rfl⟩

theorem deliverAndRemove_events (st : SettleState) :
    ∃ l, (deliverAndRemove st).events = st.events ++ l ∧
      countEv isStatusWriteEv l = 0 ∧ countEv isCreditEv l = 0 ∧
      countEv isDeliveryEv l ≤ 1 := by
  unfold deliverAndRemove
  cases hd : st.deposit with
  | none => exact ⟨[], by simp, rfl, rfl, by simp [countEv]⟩
  | some d =>
    dsimp only
    split
    · exact ⟨[.delivery], by rw [removePendingDepositS_events], rfl, rfl,
        by simp [countEv, isDeliveryEv]⟩
    · exact ⟨[.refill (match d.target_eur_amount with | some a => a | none => 0)],
        by rw [removePendingDepositS_events], rfl, rfl, by simp [countEv, isDeliveryEv]⟩

theorem scheduleSweep_events (st : SettleState) (b : Bool) :
    ∃ l, (scheduleSweep st b).events = st.events ++ l ∧
      countEv isStatusWriteEv l = 0 ∧ countEv isCreditEv l = 0 ∧
      countEv isDeliveryEv l = 0 := by
  unfold scheduleSweep
  split
  · exact ⟨[.sweep], rfl, rfl, rfl, rfl⟩
  · exact ⟨[], by simp, rfl, rfl, rfl⟩

theorem paidTail_events (st : SettleState) (price : Option ℚ) (balance expected : ℚ)
    (sweepOn : Bool) :
    ∃ l, (scheduleSweep (deliverAndRemove (overpaymentCredit st price balance expected))
          sweepOn).events = st.events ++ l ∧
      countEv isStatusWriteEv l = 0 ∧ countEv isCreditEv l ≤ 1 ∧
      countEv isDeliveryEv l ≤ 1 := by
  obtain ⟨l1, h1, s1, c1, d1⟩ := overpaymentCredit_events st price balance expected
  obtain ⟨l2, h2, s2, c2, d2⟩ := deliverAndRemove_events (overpaymentCredit st price balance expected)
  obtain ⟨l3, h3, s3, c3, d3⟩ := scheduleSweep_events
    (deliverAndRemove (overpaymentCredit st price balance expected)) sweepOn
  refine ⟨l1 ++ l2 ++ l3, ?_, ?_, ?_, ?_⟩
  · rw [h3, h2, h1]
    simp [List.append_assoc]
  · rw [countEv_append, countEv_append, s1, s2, s3]
  · rw [countEv_append, countEv_append, c2, c3]
    omega
  · rw [countEv_append, countEv_append, d1, d3]
    omega

theorem paidTail_walletStatus (st : SettleState) (price : Option ℚ) (balance expected : ℚ)
    (sweepOn : Bool) :
    (scheduleSweep (deliverAndRemove (overpaymentCredit st price balance expected))
      sweepOn).walletStatus = st.walletStatus := by
  rw [scheduleSweep_walletStatus, deliverAndRemove_walletStatus, overpaymentCredit_walletStatus]

/-- The invocation whose conditional update hit the row. -/
def pWinner (balance : ℚ) (g : SettleState) (t : PThread) : Prop :=
  t.won = true ∧
  ((t.pc = 2 ∧ g.events = [Ev.statusWrite "paid" (some balance)]) ∨
   (t.pc = 3 ∧ ∃ l, g.events = Ev.statusWrite "paid" (some balance) :: l ∧
      countEv isStatusWriteEv l = 0 ∧ countEv isCreditEv l ≤ 1 ∧
      countEv isDeliveryEv l ≤ 1))

/-- The interleaving invariant of two paid-branch invocations: while the
wallet is pending no side effect has happened and nobody won; once it is
paid, exactly one invocation won the conditional update and the trace is
the single status write followed by that winner's effects. -/
def pInv (balance : ℚ) (g : SettleState) (a c : PThread) : Prop :=
  (g.walletStatus = "pending" ∧ g.events = [] ∧
    a.won = false ∧ (a.pc = 0 ∨ a.pc = 1) ∧ c.won = false ∧ (c.pc = 0 ∨ c.pc = 1)) ∨
  (g.walletStatus = "paid" ∧
    ((pWinner balance g a ∧ c.won = false ∧ c.pc ≠ 2) ∨
     (pWinner balance g c ∧ a.won = false ∧ a.pc ≠ 2)))

theorem pInv_swap (balance : ℚ) (g : SettleState) (a c : PThread)
    (h : pInv balance g a c) : pInv balance g c a := by
  rcases h with ⟨h1, h2, h3, h4, h5, h6⟩ | ⟨h1, hw | hw⟩
  · exact Or.inl ⟨h1, h2, h5, h6, h3, h4⟩
  · exact Or.inr ⟨h1, Or.inr hw⟩
  · exact Or.inr ⟨h1, Or.inl hw⟩

theorem pStep_preserves (price : Option ℚ) (balance expected : ℚ) (sweepOn : Bool)
    (g : SettleState) (a c : PThread) (h : pInv balance g a c) :
    pInv balance (pStep price balance expected sweepOn g a).1
      (pStep price balance expected sweepOn g a).2 c := by
  obtain ⟨pc, won⟩ := a
  rcases pc with _ | _ | _ | n
  · -- pc = 0: the select check
    dsimp only [pStep]
    rcases h with ⟨h1, h2, h3, h4, h5, h6⟩ | ⟨h1, hw | hw⟩
    · rw [if_pos h1]
      exact Or.inl ⟨h1, h2, h3, Or.inr rfl, h5, h6⟩
    · obtain ⟨-, hwpc⟩ := hw.1
      rcases hwpc with ⟨h0, -⟩ | ⟨h0, -⟩ <;> simp at h0
    · rw [if_neg (by rw [h1]; decide)]
      obtain ⟨hwc, hal, -⟩ := hw
      exact Or.inr ⟨h1, Or.inr ⟨hwc, hal, by simp⟩⟩
  · -- pc = 1: the conditional update
    dsimp only [pStep]
    rcases h with ⟨h1, h2, h3, h4, h5, h6⟩ | ⟨h1, hw | hw⟩
    · rw [if_pos h1]
      refine Or.inr ⟨rfl, Or.inl ⟨⟨rfl, Or.inl ⟨rfl, ?_⟩⟩, h5, ?_⟩⟩
      · dsimp only
        rw [h2]
        rfl
      · rcases h6 with h | h <;> rw [h] <;> simp
    · obtain ⟨-, hwpc⟩ := hw.1
      rcases hwpc with ⟨h0, -⟩ | ⟨h0, -⟩ <;> simp at h0
    · rw [if_neg (by rw [h1]; decide)]
      obtain ⟨hwc, hal, -⟩ := hw
      exact Or.inr ⟨h1, Or.inr ⟨hwc, hal, by simp⟩⟩
  · -- pc = 2: the post-commit effects
    dsimp only [pStep]
    rcases h with ⟨-, -, -, h4, -, -⟩ | ⟨h1, hw | hw⟩
    · rcases h4 with h | h <;> simp at h
    · obtain ⟨hwon, hwpc⟩ := hw.1
      obtain ⟨-, hal, hal2⟩ := hw
      rcases hwpc with ⟨-, hev⟩ | ⟨h0, -⟩
      · obtain ⟨l, hl, s1, c1, d1⟩ := paidTail_events g price balance expected sweepOn
        refine Or.inr ⟨?_, Or.inl ⟨⟨hwon, Or.inr ⟨rfl, l, ?_, s1, c1, d1⟩⟩, hal, hal2⟩⟩
        · rw [paidTail_walletStatus]
          exact h1
        · rw [hl, hev]
          rfl
      · simp at h0
    · obtain ⟨-, -, hal2⟩ := hw
      exact absurd rfl hal2
  · -- pc ≥ 3: returned
    dsimp only [pStep]
    exact h

theorem pRun_preserves (price : Option ℚ) (balance expected : ℚ) (sweepOn : Bool) :
    ∀ (sched : List Bool) (g : SettleState) (a c : PThread), pInv balance g a c →
      pInv balance (pRun price balance expected sweepOn sched (g, a, c)).1
        (pRun price balance expected sweepOn sched (g, a, c)).2.1
        (pRun price balance expected sweepOn sched (g, a, c)).2.2 := by
  intro sched
  induction sched with
  | nil => intro g a c h; exact h
  | cons b rest ih =>
    intro g a c h
    cases b with
    | true =>
      dsimp only [pRun]
      exact ih _ _ _ (pStep_preserves price balance expected sweepOn g a c h)
    | false =>
      dsimp only [pRun]
      exact ih _ _ _ (pInv_swap balance _ _ _
        (pStep_preserves price balance expected sweepOn g c a (pInv_swap balance g a c h)))

theorem pInv_counts (balance : ℚ) (g : SettleState) (a c : PThread)
    (h : pInv balance g a c) :
    countEv isStatusWriteEv g.events ≤ 1 ∧ countEv isCreditEv g.events ≤ 1 ∧
    countEv isDeliveryEv g.events ≤ 1 := by
  have hone : ∀ t : PThread, pWinner balance g t →
      countEv isStatusWriteEv g.events ≤ 1 ∧ countEv isCreditEv g.events ≤ 1 ∧
      countEv isDeliveryEv g.events ≤ 1 := by
    intro t ht
    obtain ⟨-, hwpc⟩ := ht
    rcases hwpc with ⟨-, hev⟩ | ⟨-, l, hev, s1, c1, d1⟩
    · rw [hev]
      refine ⟨?_, ?_, ?_⟩ <;> simp [countEv, isStatusWriteEv, isCreditEv, isDeliveryEv]
    · refine ⟨?_, ?_, ?_⟩
      · rw [hev, countEv_cons, s1]
        simp [isStatusWriteEv]
      · rw [hev, countEv_cons]
        simpa [isCreditEv] using c1
      · rw [hev, countEv_cons]
        simpa [isDeliveryEv] using d1
  rcases h with ⟨-, h2, -⟩ | ⟨-, hw | hw⟩
  · rw [h2]
    exact ⟨by simp [countEv], by simp [countEv], by simp [countEv]⟩
  · exact hone a hw.1
  · exact hone c hw.1

theorem pInv_final (balance : ℚ) (g : SettleState) (a c : PThread)
    (h : pInv balance g a c) (ha : a.pc = 3) (hc : c.pc = 3) :
    countEv isStatusWriteEv g.events = 1 ∧ g.walletStatus = "paid" := by
  have hone : ∀ t : PThread, t.pc = 3 → pWinner balance g t →
      countEv isStatusWriteEv g.events = 1 := by
    intro t htpc ht
    obtain ⟨-, hwpc⟩ := ht
    rcases hwpc with ⟨h0, -⟩ | ⟨-, l, hev, s1, -⟩
    · rw [htpc] at h0; simp at h0
    · rw [hev, countEv_cons, s1]
      simp [isStatusWriteEv]
  rcases h with ⟨-, -, -, h4, -, -⟩ | ⟨h1, hw | hw⟩
  · rcases h4 with h | h <;> rw [ha] at h <;> simp at h
  · exact ⟨hone a ha hw.1, h1⟩
  · exact ⟨hone c hc hw.1, h1⟩

/-- Claim C2: idempotent settlement.  For two settlement invocations of
the paid branch for the same pending wallet, interleaved under any
schedule: the paid status write, the balance-credit callback and the
delivery callback each happen at most once in total; when both
invocations run to completion the status write happened exactly once and
the wallet is `paid`; and an invocation that finds the wallet no longer
`pending` returns as a no-op, leaving the state untouched. -/
theorem idempotent_settlement (price : Option ℚ) (balance expected : ℚ) (sweepOn : Bool)
    (dep0 : Option Deposit) (r0 : ℕ → ℕ) (amt0 : Option ℚ) (sched : List Bool) :
    (countEv isStatusWriteEv (pRun price balance expected sweepOn sched
        ({ walletStatus := "pending", amountReceived := amt0, deposit := dep0,
           reserved := r0, releases := 0, events := [] },
          pThreadInit, pThreadInit)).1.events ≤ 1 ∧
      countEv isCreditEv (pRun price balance expected sweepOn sched
        ({ walletStatus := "pending", amountReceived := amt0, deposit := dep0,
           reserved := r0, releases := 0, events := [] },
          pThreadInit, pThreadInit)).1.events ≤ 1 ∧
      countEv isDeliveryEv (pRun price balance expected sweepOn sched
        ({ walletStatus := "pending", amountReceived := amt0, deposit := dep0,
           reserved := r0, releases := 0, events := [] },
          pThreadInit, pThreadInit)).1.events ≤ 1) ∧
    ((pRun price balance expected sweepOn sched
        ({ walletStatus := "pending", amountReceived := amt0, deposit := dep0,
           reserved := r0, releases := 0, events := [] },
          pThreadInit, pThreadInit)).2.1.pc = 3 →
      (pRun price balance expected sweepOn sched
        ({ walletStatus := "pending", amountReceived := amt0, deposit := dep0,
           reserved := r0, releases := 0, events := [] },
          pThreadInit, pThreadInit)).2.2.pc = 3 →
      countEv isStatusWriteEv (pRun price balance expected sweepOn sched
        ({ walletStatus := "pending", amountReceived := amt0, deposit := dep0,
           reserved := r0, releases := 0, events := [] },
          pThreadInit, pThreadInit)).1.events = 1 ∧
      (pRun price balance expected sweepOn sched
        ({ walletStatus := "pending", amountReceived := amt0, deposit := dep0,
           reserved := r0, releases := 0, events := [] },
          pThreadInit, pThreadInit)).1.walletStatus = "paid") ∧
    (∀ st : SettleState, st.walletStatus ≠ "pending" →
      processPaid st price balance expected sweepOn = st) := by
  have hinit : pInv balance
      { walletStatus := "pending", amountReceived := amt0, deposit := dep0,
        reserved := r0, releases := 0, events := [] } pThreadInit pThreadInit :=
    Or.inl ⟨rfl, rfl, rfl, Or.inl rfl, rfl, Or.inl rfl⟩
  have hrun := pRun_preserves price balance expected sweepOn sched _ _ _ hinit
  refine ⟨pInv_counts balance _ _ _ hrun, ?_, ?_⟩
  · intro ha hc
    exact pInv_final balance _ _ _ hrun ha hc
  · intro st hst
    unfold processPaid
    rw [if_neg hst]

theorem idempotent_settlement_witness :
    ((countEv isStatusWriteEv (pRun (some 100) 1 1 true [true, true, false, true, false, false]
        ({ walletStatus := "pending", amountReceived := none, deposit := some sampleDeposit,
           reserved := fun _ => 3, releases := 0, events := [] },
          pThreadInit, pThreadInit)).1.events ≤ 1) ∧
      (countEv isStatusWriteEv (pRun (some 100) 1 1 true [true, true, false, true, false, false]
        ({ walletStatus := "pending", amountReceived := none, deposit := some sampleDeposit,
           reserved := fun _ => 3, releases := 0, events := [] },
          pThreadInit, pThreadInit)).1.events = 1) ∧
      (pRun (some 100) 1 1 true [true, true, false, true, false, false]
        ({ walletStatus := "pending", amountReceived := none, deposit := some sampleDeposit,
           reserved := fun _ => 3, releases := 0, events := [] },
          pThreadInit, pThreadInit)).1.walletStatus = "paid") ∧
    ({ walletStatus := "paid", amountReceived := none, deposit := none,
       reserved := fun _ => 0, releases := 0,
       events := [] : SettleState }.walletStatus ≠ "pending" ∧
      processPaid
        { walletStatus := "paid", amountReceived := none, deposit := none,
          reserved := fun _ => 0, releases := 0, events := [] } (some 100) 1 1 true
        = { walletStatus := "paid", amountReceived := none, deposit := none,
            reserved := fun _ => 0, releases := 0, events := [] }) :=
  ⟨⟨(idempotent_settlement (some 100) 1 1 true (some sampleDeposit) (fun _ => 3) none
        [true, true, false, true, false, false]).1.1,
    ((idempotent_settlement (some 100) 1 1 true (some sampleDeposit) (fun _ => 3) none
        [true, true, false, true, false, false]).2.1 rfl rfl).1,
    ((idempotent_settlement (some 100) 1 1 true (some sampleDeposit) (fun _ => 3) none
        [true, true, false, true, false, false]).2.1 rfl rfl).2⟩,
    by decide,
    (idempotent_settlement (some 100) 1 1 true (some sampleDeposit) (fun _ => 3) none
        [true, true, false, true, false, false]).2.2 _ (by decide)⟩

/-- Claim C10: when the price oracle yields no price during an Underpaid
settlement, the state is left completely unchanged — no credit, no
notification, no status write, the wallet stays `pending` — and a later
scan cycle that does obtain a price performs the entire underpaid
settlement (notify, credit, status write, sweep scheduling). -/
theorem underpaid_no_price_noop (st : SettleState) (balance : ℚ) (sweepOn : Bool)
    (hpend : st.walletStatus = "pending") :
    processUnderpaid st none balance sweepOn = st ∧
    (∀ pr, pr ≠ 0 → 0 < quantize2 (balance * pr) →
      processUnderpaid (processUnderpaid st none balance sweepOn) (some pr) balance sweepOn
        = { st with walletStatus := "refunded", amountReceived := some balance,
                    events := (st.events ++ [.notify, .credit (quantize2 (balance * pr)),
                        .statusWrite "refunded" (some balance)])
                      ++ (if sweepOn then [.sweep] else []) }) := by
  have hnoop : processUnderpaid st none balance sweepOn = st := by
    unfold processUnderpaid
    rw [if_pos hpend]
  refine ⟨hnoop, ?_⟩
  intro pr hpr hpos
  rw [hnoop, processUnderpaid_refund_shape st pr balance sweepOn hpend hpr hpos]

/-! ### Claim C1: exactly-once release under concurrent invocations of
`remove_pending_deposit`

The release path is called from several jobs (payment success, timeout
cleanup, recovery).  Each invocation performs three database operations:
the read (`get_pending_deposit`), the `DELETE` (whose rowcount is the
local `deleted`), and the conditional un-reserve.  Each operation is
atomic in SQLite, so invocations interleave at that granularity; `rStep`
is one such operation of one invocation. -/

/-- The shared state `remove_pending_deposit` touches: the
`pending_deposits` row of one order, the reserved counters, and the
ghost count of un-reserve executions. -/
structure RState where
  deposit : Option Deposit
  reserved : ℕ → ℕ
  releases : ℕ

/-- One in-flight invocation of `remove_pending_deposit`: `pc = 0` is
about to run `get_pending_deposit`, `pc = 1` is about to run the
`DELETE`, `pc = 2` is about to run the conditional un-reserve, `pc = 3`
has returned.  `info` and `deleted` are the local variables
`pending_info` and `deleted`. -/
structure RThread where
  pc : ℕ
  info : Option Deposit
  deleted : Bool
  trig : String

def rThreadInit (trig : String) : RThread :=
  { pc := 0, info := none, deleted := false, trig := trig }

/-- One atomic database operation of one invocation of
`remove_pending_deposit`. -/
def rStep (g : RState) (t : RThread) : RState × RThread :=
  match t.pc with
  | 0 => (g, { t with info := g.deposit, pc := 1 })
  | 1 => ({ g with deposit := none }, { t with deleted := g.deposit.isSome, pc := 2 })
  | 2 =>
    match t.info with
    | some d =>
      if t.deleted && d.is_purchase && !(successfulTriggers.contains t.trig) then
        ({ g with reserved := unreserveBasketItems d.basket_snapshot g.reserved,
                  releases := g.releases + 1 },
         { t with pc := 3 })
      else (g, { t with pc := 3 })
    | none => (g, { t with pc := 3 })
  | _ => (g, t)

/-- Run two concurrent invocations under a schedule: `true` steps the
first invocation, `false` the second. -/
def rRun : List Bool → RState × RThread × RThread → RState × RThread × RThread
  | [], s => s
  | b :: rest, (g, a, c) =>
    if b then rRun rest ((rStep g a).1, (rStep g a).2, c)
    else rRun rest ((rStep g c).1, a, (rStep g c).2)

/-- The invocation whose `DELETE` succeeded: it read the row before any
delete, and it is the only one that will (or did) un-reserve. -/
def rWinner (d : Deposit) (r0 : ℕ → ℕ) (g : RState) (t : RThread) : Prop :=
  t.deleted = true ∧ t.info = some d ∧
  ((t.pc = 2 ∧ g.releases = 0 ∧ g.reserved = r0) ∨
   (t.pc = 3 ∧ g.releases = 1 ∧ g.reserved = unreserveBasketItems d.basket_snapshot r0))

/-- An invocation that has not yet reached its `DELETE` while the row is
still present. -/
def rFresh (d : Deposit) (t : RThread) : Prop :=
  t.deleted = false ∧ (t.pc = 0 ∨ (t.pc = 1 ∧ t.info = some d))

/-- The interleaving invariant: either the row is still present, nothing
has been released and both invocations are before their delete, or the
row is gone and exactly one invocation won the delete (the other's
`deleted` is false, so it can never release). -/
def rInv (d : Deposit) (r0 : ℕ → ℕ) (g : RState) (a c : RThread) : Prop :=
  successfulTriggers.contains a.trig = false ∧
  successfulTriggers.contains c.trig = false ∧
  d.is_purchase = true ∧
  ((g.deposit = some d ∧ g.releases = 0 ∧ g.reserved = r0 ∧ rFresh d a ∧ rFresh d c) ∨
   (g.deposit = none ∧
     ((rWinner d r0 g a ∧ c.deleted = false) ∨ (rWinner d r0 g c ∧ a.deleted = false))))

theorem rInv_swap (d : Deposit) (r0 : ℕ → ℕ) (g : RState) (a c : RThread)
    (h : rInv d r0 g a c) : rInv d r0 g c a := by
  obtain ⟨hA, hB, hd, hmain⟩ := h
  refine ⟨hB, hA, hd, ?_⟩
  rcases hmain with ⟨h1, h2, h3, h4, h5⟩ | ⟨h1, hw⟩
  · exact Or.inl ⟨h1, h2, h3, h5, h4⟩
  · rcases hw with hw | hw
    · exact Or.inr ⟨h1, Or.inr hw⟩
    · exact Or.inr ⟨h1, Or.inl hw⟩

theorem rStep_preserves (d : Deposit) (r0 : ℕ → ℕ) (g : RState) (a c : RThread)
    (h : rInv d r0 g a c) : rInv d r0 (rStep g a).1 (rStep g a).2 c := by
  obtain ⟨hA, hB, hd, hmain⟩ := h
  obtain ⟨pc, info, deleted, trig⟩ := a
  dsimp only at hA
  rcases pc with _ | _ | _ | n
  · -- pc = 0: the read
    dsimp only [rStep]
    refine ⟨hA, hB, hd, ?_⟩
    rcases hmain with ⟨h1, h2, h3, ⟨hdel, -⟩, hc⟩ | ⟨h1, hw⟩
    · exact Or.inl ⟨h1, h2, h3, ⟨hdel, Or.inr ⟨rfl, h1⟩⟩, hc⟩
    · rcases hw with ⟨⟨-, -, hwpc⟩, -⟩ | ⟨hwc, hal⟩
      · rcases hwpc with ⟨h0, -⟩ | ⟨h0, -⟩ <;> simp at h0
      · exact Or.inr ⟨h1, Or.inr ⟨hwc, hal⟩⟩
  · -- pc = 1: the delete
    dsimp only [rStep]
    refine ⟨hA, hB, hd, ?_⟩
    rcases hmain with ⟨h1, h2, h3, ⟨hdel, hpc⟩, hc⟩ | ⟨h1, hw⟩
    · have hinfo : info = some d := by
        rcases hpc with h | ⟨-, h⟩
        · simp at h
        · exact h
      refine Or.inr ⟨rfl, Or.inl ⟨⟨?_, hinfo, Or.inl ⟨rfl, h2, h3⟩⟩, hc.1⟩⟩
      rw [h1]
      rfl
    · rcases hw with ⟨⟨-, -, hwpc⟩, -⟩ | ⟨hwc, -⟩
      · rcases hwpc with ⟨h0, -⟩ | ⟨h0, -⟩ <;> simp at h0
      · refine Or.inr ⟨rfl, Or.inr ⟨hwc, ?_⟩⟩
        rw [h1]
        rfl
  · -- pc = 2: the conditional un-reserve
    cases hinfo : info with
    | none =>
      dsimp only [rStep, hinfo]
      refine ⟨hA, hB, hd, ?_⟩
      rcases hmain with ⟨-, -, -, ⟨-, hpc⟩, -⟩ | ⟨h1, hw⟩
      · rcases hpc with h | ⟨h, -⟩ <;> simp at h
      · rcases hw with ⟨⟨-, hai, -⟩, -⟩ | ⟨hwc, hal⟩
        · rw [hinfo] at hai
          exact absurd hai (by simp)
        · exact Or.inr ⟨h1, Or.inr ⟨hwc, hal⟩⟩
    | some d2 =>
      dsimp only [rStep, hinfo]
      by_cases hcond : (deleted && d2.is_purchase && !(successfulTriggers.contains trig)) = true
      · rw [if_pos hcond]
        refine ⟨hA, hB, hd, ?_⟩
        rcases hmain with ⟨-, -, -, ⟨-, hpc⟩, -⟩ | ⟨h1, hw⟩
        · rcases hpc with h | ⟨h, -⟩ <;> simp at h
        · rcases hw with ⟨⟨hadel, hai, hwpc⟩, hcl⟩ | ⟨-, hal⟩
          · dsimp only at hadel hai hwpc
            rw [hinfo] at hai
            have hd2 : d2 = d := by
              exact Option.some_injective _ hai
            rcases hwpc with ⟨-, h2, h3⟩ | ⟨h3eq, -⟩
            · refine Or.inr ⟨h1, Or.inl ⟨⟨hadel, by dsimp only; rw [hd2], Or.inr ⟨rfl, ?_, ?_⟩⟩, hcl⟩⟩
              · dsimp only
                rw [h2]
              · dsimp only
                rw [h3, hd2]
            · simp at h3eq
          · dsimp only at hal
            rw [hal] at hcond
            simp at hcond
      · rw [if_neg hcond]
        refine ⟨hA, hB, hd, ?_⟩
        rcases hmain with ⟨-, -, -, ⟨-, hpc⟩, -⟩ | ⟨h1, hw⟩
        · rcases hpc with h | ⟨h, -⟩ <;> simp at h
        · rcases hw with ⟨⟨hadel, hai, -⟩, -⟩ | ⟨hwc, hal⟩
          · dsimp only at hadel hai
            rw [hinfo] at hai
            have hd2 : d2 = d := by
              exact Option.some_injective _ hai
            rw [hadel, hd2, hd, hA] at hcond
            simp at hcond
          · exact Or.inr ⟨h1, Or.inr ⟨hwc, hal⟩⟩
  · -- pc ≥ 3: returned, no step
    dsimp only [rStep]
    exact ⟨hA, hB, hd, hmain⟩

theorem rRun_preserves (d : Deposit) (r0 : ℕ → ℕ) :
    ∀ (sched : List Bool) (g : RState) (a c : RThread), rInv d r0 g a c →
      rInv d r0 (rRun sched (g, a, c)).1 (rRun sched (g, a, c)).2.1
        (rRun sched (g, a, c)).2.2 := by
  intro sched
  induction sched with
  | nil => intro g a c h; exact h
  | cons b rest ih =>
    intro g a c h
    cases b with
    | true =>
      dsimp only [rRun]
      exact ih _ _ _ (rStep_preserves d r0 g a c h)
    | false =>
      dsimp only [rRun]
      exact ih _ _ _ (rInv_swap d r0 _ _ _
        (rStep_preserves d r0 g c a (rInv_swap d r0 g a c h)))

theorem rInv_final (d : Deposit) (r0 : ℕ → ℕ) (g : RState) (a c : RThread)
    (h : rInv d r0 g a c) (ha : a.pc = 3) (hc : c.pc = 3) :
    g.releases = 1 ∧ g.reserved = unreserveBasketItems d.basket_snapshot r0 := by
  obtain ⟨-, -, -, hmain⟩ := h
  rcases hmain with ⟨-, -, -, ⟨-, hpc⟩, -⟩ | ⟨-, hw⟩
  · rcases hpc with h0 | ⟨h0, -⟩ <;> rw [ha] at h0 <;> simp at h0
  · rcases hw with ⟨⟨-, -, hwpc⟩, -⟩ | ⟨⟨-, -, hwpc⟩, -⟩
    · rcases hwpc with ⟨h2, -⟩ | ⟨-, h2, h3⟩
      · rw [ha] at h2; simp at h2
      · exact ⟨h2, h3⟩
    · rcases hwpc with ⟨h2, -⟩ | ⟨-, h2, h3⟩
      · rw [hc] at h2; simp at h2
      · exact ⟨h2, h3⟩

/-- One complete sequential invocation of `remove_pending_deposit`
(utils.py 1757–1786) acting on the shared state. -/
def removePendingDepositRun (g : RState) (trig : String) : RState :=
  let info := g.deposit
  let deleted := g.deposit.isSome
  let g1 : RState := { g with deposit := none }
  match info with
  | some d =>
    if deleted && d.is_purchase && !(successfulTriggers.contains trig) then
      { g1 with reserved := unreserveBasketItems d.basket_snapshot g1.reserved,
                releases := g1.releases + 1 }
    else g1
  | none => g1

theorem removePendingDepositRun_hit (g : RState) (d : Deposit) (trig : String)
    (hg : g.deposit = some d) (hd : d.is_purchase = true)
    (htrig : successfulTriggers.contains trig = false) :
    removePendingDepositRun g trig
      = { deposit := none, reserved := unreserveBasketItems d.basket_snapshot g.reserved,
          releases := g.releases + 1 } := by
  unfold removePendingDepositRun
  rw [hg]
  dsimp only
  rw [if_pos (by rw [hd, htrig]; rfl)]

theorem removePendingDepositRun_miss (g : RState) (trig : String) (hg : g.deposit = none) :
    removePendingDepositRun g trig = g := by
  obtain ⟨dep, res, rel⟩ := g
  dsimp only at hg
  subst hg
  rfl

theorem foldl_removePendingDepositRun_stable (trigs : List String) :
    ∀ g : RState, g.deposit = none → trigs.foldl removePendingDepositRun g = g := by
  induction trigs with
  | nil => intro g _; rfl
  | cons t rest ih =>
    intro g hg
    rw [List.foldl_cons, removePendingDepositRun_miss g t hg]
    exact ih g hg

/-- Claim C1: exactly-once release.  For a purchase order whose release
path runs with non-success triggers (underpayment, expiry, cancellation,
timeout): (1) two concurrent invocations of `remove_pending_deposit`,
interleaved at database-operation granularity under any schedule, both
run to completion with the un-reserve executed exactly once — by the
single invocation whose delete succeeded — leaving each product's
reserved count decremented by exactly its snapshot multiplicity; (2) any
non-empty sequence of sequential invocations likewise un-reserves
exactly once. -/
theorem exactly_once_release (d : Deposit) (r0 : ℕ → ℕ) (trigA trigB : String)
    (sched : List Bool) (trigs : List String)
    (hd : d.is_purchase = true)
    (hA : successfulTriggers.contains trigA = false)
    (hB : successfulTriggers.contains trigB = false)
    (htrigs : ∀ t ∈ trigs, successfulTriggers.contains t = false)
    (hne : trigs ≠ []) :
    ((rRun sched ({ deposit := some d, reserved := r0, releases := 0 },
        rThreadInit trigA, rThreadInit trigB)).2.1.pc = 3 →
      (rRun sched ({ deposit := some d, reserved := r0, releases := 0 },
        rThreadInit trigA, rThreadInit trigB)).2.2.pc = 3 →
      (rRun sched ({ deposit := some d, reserved := r0, releases := 0 },
        rThreadInit trigA, rThreadInit trigB)).1.releases = 1 ∧
      (rRun sched ({ deposit := some d, reserved := r0, releases := 0 },
        rThreadInit trigA, rThreadInit trigB)).1.reserved
        = unreserveBasketItems d.basket_snapshot r0) ∧
    ((trigs.foldl removePendingDepositRun
        { deposit := some d, reserved := r0, releases := 0 }).releases = 1 ∧
     (trigs.foldl removePendingDepositRun
        { deposit := some d, reserved := r0, releases := 0 }).reserved
       = unreserveBasketItems d.basket_snapshot r0 ∧
     (trigs.foldl removePendingDepositRun
        { deposit := some d, reserved := r0, releases := 0 }).deposit = none) := by
  constructor
  · intro ha hc
    have hinit : rInv d r0 { deposit := some d, reserved := r0, releases := 0 }
        (rThreadInit trigA) (rThreadInit trigB) :=
      ⟨hA, hB, hd, Or.inl ⟨rfl, rfl, rfl, ⟨rfl, Or.inl rfl⟩, ⟨rfl, Or.inl rfl⟩⟩⟩
    exact rInv_final d r0 _ _ _ (rRun_preserves d r0 sched _ _ _ hinit) ha hc
  · cases trigs with
    | nil => exact absurd rfl hne
    | cons t rest =>
      have ht : successfulTriggers.contains t = false := htrigs t (List.mem_cons_self t rest)
      rw [List.foldl_cons,
        removePendingDepositRun_hit _ d t rfl hd ht,
        foldl_removePendingDepositRun_stable rest _ rfl]
      exact ⟨rfl, rfl, rfl⟩

theorem exactly_once_release_witness :
    (sampleDeposit.is_purchase = true ∧
      successfulTriggers.contains "timeout_expiry" = false ∧
      successfulTriggers.contains "expired" = false ∧
      (∀ t ∈ ["timeout_expiry"], successfulTriggers.contains t = false) ∧
      ["timeout_expiry"] ≠ ([] : List String)) ∧
    ((rRun [true, true, false, true, false, false]
        ({ deposit := some sampleDeposit, reserved := fun _ => 3, releases := 0 },
          rThreadInit "timeout_expiry", rThreadInit "expired")).1.releases = 1 ∧
      (rRun [true, true, false, true, false, false]
        ({ deposit := some sampleDeposit, reserved := fun _ => 3, releases := 0 },
          rThreadInit "timeout_expiry", rThreadInit "expired")).1.reserved
        = unreserveBasketItems sampleDeposit.basket_snapshot (fun _ => 3)) ∧
    ((["timeout_expiry"].foldl removePendingDepositRun
        { deposit := some sampleDeposit, reserved := fun _ => 3, releases := 0 }).releases = 1 ∧
     (["timeout_expiry"].foldl removePendingDepositRun
        { deposit := some sampleDeposit, reserved := fun _ => 3, releases := 0 }).reserved
       = unreserveBasketItems sampleDeposit.basket_snapshot (fun _ => 3) ∧
     (["timeout_expiry"].foldl removePendingDepositRun
        { deposit := some sampleDeposit, reserved := fun _ => 3, releases := 0 }).deposit
       = none) :=
  ⟨⟨rfl, by decide, by decide, by decide, by decide⟩,
    (exactly_once_release sampleDeposit (fun _ => 3) "timeout_expiry" "expired"
        [true, true, false, true, false, false] ["timeout_expiry"] rfl (by decide) (by decide)
        (by decide) (by decide)).1 rfl rfl,
    (exactly_once_release sampleDeposit (fun _ => 3) "timeout_expiry" "expired"
        [true, true, false, true, false, false] ["timeout_expiry"] rfl (by decide) (by decide)
        (by decide) (by decide)).2⟩

theorem underpaid_no_price_noop_witness :
    sampleState.walletStatus = "pending" ∧
    (processUnderpaid sampleState none (1/2) true = sampleState ∧
      (∀ pr, pr ≠ 0 → 0 < quantize2 ((1/2 : ℚ) * pr) →
        processUnderpaid (processUnderpaid sampleState none (1/2) true) (some pr) (1/2) true
          = { sampleState with walletStatus := "refunded", amountReceived := some (1/2),
                               events := (sampleState.events
                                   ++ [.notify, .credit (quantize2 ((1/2 : ℚ) * pr)),
                                     .statusWrite "refunded" (some (1/2))])
                                 ++ (if true then [.sweep] else []) })) :=
  ⟨rfl, underpaid_no_price_noop sampleState (1/2) true rfl⟩

end PaymentCore
